import Mathlib

/-!
Verification of the Open Duck Mini Waveshare servo runtime.

The development shallowly embeds the Python sources of the repository:

* `Open_Duck_Mini_Runtime/mini_bdx_runtime/waveshare_position_hwi.py`
  (the runtime `WaveshareHWI` adapter: unit conversion, position batch
  write/read, torque on/off),
* `duck_files/mini_bdx_runtime/mini_bdx_runtime/waveshare_position_hwi.py`
  (the duck_files `WaveshareHWI`: 2048-count conversion with per-joint
  calibration offsets and all-or-nothing reads),
* `Open_Duck_Mini_Runtime/scripts/compute_init_pos.py` (calibration merge),
* `Open_Duck_Mini_Runtime/mini_bdx_runtime/mini_bdx_runtime/check_motors.py`
  (diagnostic script, operator-abort path),
* `STServo_Python/stservo-env/sms_sts/test_waveshare_setup.py`
  (SC duration parameter computation in `test_single_movement`).

Modelling conventions: Python floats are modelled by `ℚ`; `math.pi`
(and `np.pi`) is the IEEE-754 double nearest π, which is exactly the
rational `884279719003555 / 2^48`, introduced below as `piF`.  All bounds
in the claims are of magnitude ≥ 5·10⁻⁴, ten orders above double-precision
rounding, so exact rational arithmetic on the float values is a faithful
model.  Python `int()` is truncation toward zero (`truncQ`); `//` is floor
division (`Int.fdiv`); serial-bus transactions are modelled by explicit
read functions (`Option`-valued: `none` models a raised exception).
-/

/-- The exact rational value of the IEEE-754 double `math.pi` / `np.pi`
used by the Python sources (`884279719003555 / 2^48`). -/
def piF : ℚ := 884279719003555 / 281474976710656

/-- Python `int()` applied to a float: truncation toward zero. -/
def truncQ (q : ℚ) : ℤ := if 0 ≤ q then ⌊q⌋ else ⌈q⌉

/-- `clamp(v, a, b) = max(a, min(b, v))` from
`Open_Duck_Mini_Runtime/mini_bdx_runtime/waveshare_position_hwi.py`. -/
def clampZ (v a b : ℤ) : ℤ := max a (min b v)

/-- `WaveshareHWI.rad_to_servo_pos` (runtime version):
`center = int(counts_per_pi / 2)`;
`pos = int((rad / math.pi) * (counts_per_pi / 2) + center)`;
`return clamp(pos, 0, counts_per_pi - 1)`. -/
def rad_to_servo_pos (countsPerPi : ℤ) (rad : ℚ) : ℤ :=
  let center : ℤ := truncQ ((countsPerPi : ℚ) / 2)
  let pos : ℤ := truncQ ((rad / piF) * ((countsPerPi : ℚ) / 2) + (center : ℚ))
  clampZ pos 0 (countsPerPi - 1)

/-- `WaveshareHWI.servo_pos_to_rad` (runtime version):
`center = int(counts_per_pi / 2)`;
`return (count - center) * math.pi / (counts_per_pi / 2)`. -/
def servo_pos_to_rad (countsPerPi : ℤ) (count : ℤ) : ℚ :=
  let center : ℤ := truncQ ((countsPerPi : ℚ) / 2)
  ((count : ℚ) - (center : ℚ)) * piF / ((countsPerPi : ℚ) / 2)

lemma piF_pos : 0 < piF := by norm_num [piF]

lemma truncQ_of_nonneg {q : ℚ} (h : 0 ≤ q) : truncQ q = ⌊q⌋ := if_pos h

lemma truncQ_intCast (n : ℤ) : truncQ (n : ℚ) = n := by
  unfold truncQ
  split
  · exact Int.floor_intCast n
  · exact Int.ceil_intCast n

lemma truncQ_mono : Monotone truncQ := by
  intro q r hqr
  unfold truncQ
  by_cases hq : 0 ≤ q
  · rw [if_pos hq, if_pos (le_trans hq hqr)]
    exact Int.floor_le_floor hqr
  · rw [if_neg hq]
    by_cases hr : 0 ≤ r
    · rw [if_pos hr]
      refine le_trans (Int.ceil_le.2 ?_) (Int.floor_nonneg.2 hr)
      exact_mod_cast le_of_not_le hq
    · rw [if_neg hr]
      exact Int.ceil_le_ceil hqr

lemma truncQ_nonneg {q : ℚ} (h : 0 ≤ q) : 0 ≤ truncQ q := by
  rw [truncQ_of_nonneg h]
  exact Int.floor_nonneg.2 h

lemma clampZ_mono {v₁ v₂ a b : ℤ} (h : v₁ ≤ v₂) : clampZ v₁ a b ≤ clampZ v₂ a b := by
  unfold clampZ
  omega

lemma clampZ_eq_min {x B : ℤ} (hx : 0 ≤ x) (hB : 0 ≤ B) : clampZ x 0 B = min B x := by
  unfold clampZ
  omega

/-- Quantization error of flooring then saturating at `B`: within one count
as long as the value lies in `[0, B+1]`. -/
lemma abs_min_floor_sub_le (v : ℚ) (B : ℤ) (h1 : v ≤ (B : ℚ) + 1) :
    |((min B ⌊v⌋ : ℤ) : ℚ) - v| ≤ 1 := by
  rcases le_or_lt ⌊v⌋ B with hle | hlt
  · rw [min_eq_right hle, abs_le]
    constructor
    · have := Int.sub_one_lt_floor v
      linarith
    · have := Int.floor_le v
      linarith
  · rw [min_eq_left hlt.le, abs_le]
    have hBv : (B : ℚ) + 1 ≤ v := by
      have h2 : (B + 1 : ℤ) ≤ ⌊v⌋ := hlt
      calc ((B : ℚ) + 1) = ((B + 1 : ℤ) : ℚ) := by push_cast; ring
        _ ≤ (⌊v⌋ : ℚ) := by exact_mod_cast h2
        _ ≤ v := Int.floor_le v
    constructor
    · linarith
    · linarith

/-- C2: for every protocol profile (resolution `2*h`, center `h`) and every
radian value `θ` with `|θ| ≤ π`, converting to a count and back differs from
`θ` by at most one angular unit `π / (resolution/2)`. -/
theorem roundtrip_within_one_count (h : ℤ) (hpos : 0 < h) (θ : ℚ) (hθ : |θ| ≤ piF) :
    |servo_pos_to_rad (2 * h) (rad_to_servo_pos (2 * h) θ) - θ| ≤ piF / (h : ℚ) := by
  have hq0 : (0 : ℚ) < (h : ℚ) := by exact_mod_cast hpos
  have hhalf : ((2 * h : ℤ) : ℚ) / 2 = (h : ℚ) := by push_cast; ring
  have hcenter : truncQ (((2 * h : ℤ) : ℚ) / 2) = h := by rw [hhalf, truncQ_intCast]
  set v : ℚ := (θ / piF) * (h : ℚ) + (h : ℚ) with hv
  have hθdiv : |θ / piF| ≤ 1 := by
    rw [abs_div, abs_of_pos piF_pos]
    exact div_le_one_of_le₀ hθ piF_pos.le
  rw [abs_le] at hθdiv
  have hv0 : 0 ≤ v := by
    have : -(1 : ℚ) * (h : ℚ) ≤ (θ / piF) * (h : ℚ) :=
      mul_le_mul_of_nonneg_right hθdiv.1 hq0.le
    rw [hv]; linarith
  have hv2 : v ≤ 2 * (h : ℚ) := by
    have : (θ / piF) * (h : ℚ) ≤ 1 * (h : ℚ) :=
      mul_le_mul_of_nonneg_right hθdiv.2 hq0.le
    rw [hv]; linarith
  have hfl0 : 0 ≤ ⌊v⌋ := Int.floor_nonneg.2 hv0
  have hpos_eq : rad_to_servo_pos (2 * h) θ = min (2 * h - 1) ⌊v⌋ := by
    show clampZ (truncQ ((θ / piF) * (((2 * h : ℤ) : ℚ) / 2) +
        ((truncQ (((2 * h : ℤ) : ℚ) / 2) : ℤ) : ℚ))) 0 (2 * h - 1) = min (2 * h - 1) ⌊v⌋
    rw [hcenter, hhalf, ← hv, truncQ_of_nonneg hv0]
    exact clampZ_eq_min hfl0 (by omega)
  set p : ℤ := min (2 * h - 1) ⌊v⌋ with hp
  have hback : servo_pos_to_rad (2 * h) (rad_to_servo_pos (2 * h) θ) =
      ((p : ℚ) - (h : ℚ)) * piF / (h : ℚ) := by
    rw [hpos_eq]
    show ((p : ℚ) - ((truncQ (((2 * h : ℤ) : ℚ) / 2) : ℤ) : ℚ)) * piF / (((2 * h : ℤ) : ℚ) / 2) =
      ((p : ℚ) - (h : ℚ)) * piF / (h : ℚ)
    rw [hcenter, hhalf]
  have hθeq : (v - (h : ℚ)) * piF / (h : ℚ) = θ := by
    have hpne : piF ≠ 0 := piF_pos.ne'
    have hhne : (h : ℚ) ≠ 0 := hq0.ne'
    rw [hv]
    field_simp
    ring
  have herr : servo_pos_to_rad (2 * h) (rad_to_servo_pos (2 * h) θ) - θ =
      ((p : ℚ) - v) * (piF / (h : ℚ)) := by
    rw [hback, ← hθeq]
    ring
  rw [herr, abs_mul, abs_of_pos (div_pos piF_pos hq0)]
  have hbound : |(p : ℚ) - v| ≤ 1 := by
    have hb := abs_min_floor_sub_le v (2 * h - 1) (by push_cast; linarith)
    rw [hp]
    convert hb using 3
  calc |(p : ℚ) - v| * (piF / (h : ℚ)) ≤ 1 * (piF / (h : ℚ)) :=
        mul_le_mul_of_nonneg_right hbound (div_pos piF_pos hq0).le
    _ = piF / (h : ℚ) := one_mul _

/-- C2 witness: the SC profile (resolution 1024 = 2·512) at `θ = π/2`. -/
theorem roundtrip_within_one_count_witness :
    |servo_pos_to_rad (2 * 512) (rad_to_servo_pos (2 * 512) (piF / 2)) - piF / 2| ≤
      piF / (512 : ℚ) :=
  roundtrip_within_one_count 512 (by norm_num) (piF / 2)
    (by rw [abs_of_pos (by norm_num [piF])]; norm_num [piF])

/-- C3 counterexample: with the SC profile (resolution 1024, center 512) and zero
offset, the commanded angle 1.368 rad converts to count 734, not 735: the code
truncates with `int()` where the claim rounds. -/
theorem rad_to_servo_pos_1368_ne_735 : rad_to_servo_pos 1024 (171 / 125) ≠ 735 := by
  norm_num [rad_to_servo_pos, truncQ, clampZ, piF]

/-- C3 amended: the commanded angle 1.368 rad converts to count
`int(1.368/π*512) + 512 = 734` (truncation, not rounding), and converting count
734 back yields an angle within one count (`π/512`) of 1.368. -/
theorem sc_example_roundtrip :
    rad_to_servo_pos 1024 (171 / 125) = 734 ∧
      |servo_pos_to_rad 1024 734 - 171 / 125| ≤ piF / 512 := by
  constructor
  · norm_num [rad_to_servo_pos, truncQ, clampZ, piF]
  · norm_num [servo_pos_to_rad, truncQ, piF, abs_le]

/-- C4: for every positive resolution, `rad_to_servo_pos` is monotone
non-decreasing in the angle and always lands in `[0, resolution - 1]`,
for arbitrary (also far out-of-range) inputs. -/
theorem rad_to_servo_pos_monotone_and_range (cpp : ℤ) (hc : 0 < cpp) :
    (∀ θ₁ θ₂ : ℚ, θ₁ ≤ θ₂ → rad_to_servo_pos cpp θ₁ ≤ rad_to_servo_pos cpp θ₂) ∧
      (∀ θ : ℚ, 0 ≤ rad_to_servo_pos cpp θ ∧ rad_to_servo_pos cpp θ ≤ cpp - 1) := by
  constructor
  · intro θ₁ θ₂ hle
    have harg : (θ₁ / piF) * ((cpp : ℚ) / 2) + ((truncQ ((cpp : ℚ) / 2) : ℤ) : ℚ) ≤
        (θ₂ / piF) * ((cpp : ℚ) / 2) + ((truncQ ((cpp : ℚ) / 2) : ℤ) : ℚ) := by
      have hhalf : (0 : ℚ) ≤ (cpp : ℚ) / 2 := by positivity
      have hd : θ₁ / piF ≤ θ₂ / piF := by
        have := mul_le_mul_of_nonneg_right hle (inv_nonneg.2 piF_pos.le)
        simpa [div_eq_mul_inv] using this
      have := mul_le_mul_of_nonneg_right hd hhalf
      linarith
    exact clampZ_mono (truncQ_mono harg)
  · intro θ
    show 0 ≤ clampZ _ 0 (cpp - 1) ∧ clampZ _ 0 (cpp - 1) ≤ cpp - 1
    unfold clampZ
    omega

/-- C4 witness: resolution 1024, monotone step at `0 ≤ 1` and range at `θ = 5`. -/
theorem rad_to_servo_pos_monotone_and_range_witness :
    rad_to_servo_pos 1024 0 ≤ rad_to_servo_pos 1024 1 ∧
      (0 ≤ rad_to_servo_pos 1024 5 ∧ rad_to_servo_pos 1024 5 ≤ 1024 - 1) :=
  ⟨(rad_to_servo_pos_monotone_and_range 1024 (by norm_num)).1 0 1 (by norm_num),
    (rad_to_servo_pos_monotone_and_range 1024 (by norm_num)).2 5⟩

/-!
Calibration merge, from `Open_Duck_Mini_Runtime/scripts/compute_init_pos.py`:
`center = counts_per_pi // 2`; for each `(joint, sid)` in `joint_map`, look the
servo id up in the calibration record (keys may be decimal strings or
integers — both probes index by the same servo id, collapsed here into one
association-list lookup); absent ids are skipped; present ids overwrite
`init_pos[joint]` with `(c - center) * math.pi / (counts_per_pi / 2)`.
The per-joint configuration values are modelled as a map
`String → Option ℚ` (`none` = joint absent from `init_pos`).
-/

/-- Calibration-record lookup: `data[str(sid)]` else `data[sid]` else `None`. -/
def recLookup (rec : List (ℤ × ℤ)) (sid : ℤ) : Option ℤ := rec.lookup sid

/-- `rad = (c - center) * math.pi / (counts_per_pi / 2)` with
`center = counts_per_pi // 2` (Python floor division). -/
def calibOffsetRad (countsPerPi c : ℤ) : ℚ :=
  ((c : ℚ) - ((countsPerPi.fdiv 2 : ℤ) : ℚ)) * piF / ((countsPerPi : ℚ) / 2)

/-- One iteration of the merge loop of `compute_init_pos.main`. -/
def mergeStep (countsPerPi : ℤ) (rec : List (ℤ × ℤ)) (ip : String → Option ℚ)
    (p : String × ℤ) : String → Option ℚ :=
  match recLookup rec p.2 with
  | none => ip
  | some c => Function.update ip p.1 (some (calibOffsetRad countsPerPi c))

/-- The merge loop of `compute_init_pos.main`: fold the update over the
`joint_map` entries in order. -/
def mergeInitPos (countsPerPi : ℤ) (rec : List (ℤ × ℤ)) (jm : List (String × ℤ))
    (ip : String → Option ℚ) : String → Option ℚ :=
  jm.foldl (mergeStep countsPerPi rec) ip

lemma mergeInitPos_nil (countsPerPi : ℤ) (rec : List (ℤ × ℤ)) (ip : String → Option ℚ) :
    mergeInitPos countsPerPi rec [] ip = ip := rfl

lemma mergeInitPos_cons (countsPerPi : ℤ) (rec : List (ℤ × ℤ)) (p : String × ℤ)
    (jm : List (String × ℤ)) (ip : String → Option ℚ) :
    mergeInitPos countsPerPi rec (p :: jm) ip =
      mergeInitPos countsPerPi rec jm (mergeStep countsPerPi rec ip p) := rfl

/-- C5: the calibration merge leaves unchanged the `init_pos` entry of every
joint none of whose `joint_map` rows has a servo id present in the record; in
particular an empty record (every lookup `none`) changes no per-joint value. -/
theorem mergeInitPos_absent (countsPerPi : ℤ) (rec : List (ℤ × ℤ))
    (jm : List (String × ℤ)) (ip : String → Option ℚ) (n : String)
    (habs : ∀ p ∈ jm, p.1 = n → recLookup rec p.2 = none) :
    mergeInitPos countsPerPi rec jm ip n = ip n := by
  induction jm generalizing ip with
  | nil => rfl
  | cons p jm ih =>
    rw [mergeInitPos_cons]
    have hstep : mergeStep countsPerPi rec ip p n = ip n := by
      unfold mergeStep
      rcases hrec : recLookup rec p.2 with _ | c
      · rfl
      · have hne : p.1 ≠ n := by
          intro hEq
          exact Option.noConfusion ((habs p (List.mem_cons_self p jm) hEq).symm.trans hrec)
        exact Function.update_noteq (Ne.symm hne) _ ip
    calc mergeInitPos countsPerPi rec jm (mergeStep countsPerPi rec ip p) n
        = mergeStep countsPerPi rec ip p n := by
          exact ih (mergeStep countsPerPi rec ip p)
            (fun q hq hqn => habs q (List.mem_cons_of_mem p hq) hqn)
      _ = ip n := hstep

/-- C5 witness: a two-joint table merged against an empty record leaves the
configured value of `left_knee` untouched. -/
theorem mergeInitPos_absent_witness :
    mergeInitPos 1024 [] [("left_knee", 23), ("left_ankle", 24)]
      (fun n => if n = "left_knee" then some (171 / 125) else none) "left_knee" =
      some (171 / 125) := by
  have h := mergeInitPos_absent 1024 [] [("left_knee", 23), ("left_ankle", 24)]
    (fun n => if n = "left_knee" then some (171 / 125) else none) "left_knee"
    (fun p _ _ => rfl)
  rw [h]
  simp

/-- For each joint name, the merge either passes the previous value through (for
every input configuration) or writes a value that does not depend on the input
configuration. -/
lemma mergeInitPos_cases (countsPerPi : ℤ) (rec : List (ℤ × ℤ))
    (jm : List (String × ℤ)) (n : String) :
    (∀ ip : String → Option ℚ, mergeInitPos countsPerPi rec jm ip n = ip n) ∨
      (∃ v, ∀ ip : String → Option ℚ, mergeInitPos countsPerPi rec jm ip n = v) := by
  induction jm with
  | nil => exact Or.inl fun ip => rfl
  | cons p jm ih =>
    rcases ih with hpass | ⟨v, hconst⟩
    · rcases hrec : recLookup rec p.2 with _ | c
      · refine Or.inl fun ip => ?_
        rw [mergeInitPos_cons, hpass]
        unfold mergeStep
        rw [hrec]
      · by_cases hn : p.1 = n
        · refine Or.inr ⟨some (calibOffsetRad countsPerPi c), fun ip => ?_⟩
          rw [mergeInitPos_cons, hpass]
          unfold mergeStep
          rw [hrec, hn]
          exact Function.update_same n _ ip
        · refine Or.inl fun ip => ?_
          rw [mergeInitPos_cons, hpass]
          unfold mergeStep
          rw [hrec]
          exact Function.update_noteq (Ne.symm hn) _ ip
    · exact Or.inr ⟨v, fun ip => by rw [mergeInitPos_cons, hconst]⟩

/-- C6: the calibration merge is idempotent — merging the same record twice
yields the same final configuration as merging it once. -/
theorem mergeInitPos_idem (countsPerPi : ℤ) (rec : List (ℤ × ℤ))
    (jm : List (String × ℤ)) (ip : String → Option ℚ) :
    mergeInitPos countsPerPi rec jm (mergeInitPos countsPerPi rec jm ip) =
      mergeInitPos countsPerPi rec jm ip := by
  funext n
  rcases mergeInitPos_cases countsPerPi rec jm n with hpass | ⟨v, hconst⟩
  · rw [hpass]
  · rw [hconst, hconst]

/-!
Position reads.  Runtime version
(`Open_Duck_Mini_Runtime/mini_bdx_runtime/waveshare_position_hwi.py`,
`get_present_positions`): iterates joint names in sorted order, skips ignored
names, and on a read exception appends `0.0` instead of failing.  duck_files
version (`duck_files/.../waveshare_position_hwi.py`, `get_present_positions`):
iterates the hard-coded 14-joint table in insertion order, removes the
per-joint offset, and returns `None` as soon as any read fails (exception or
`comm_result != COMM_SUCCESS`), finally applying `np.around(·, 3)`.
-/

/-- Insertion step used to model Python `sorted(self.joints.keys())`. -/
def insertByName (p : String × ℤ) : List (String × ℤ) → List (String × ℤ)
  | [] => [p]
  | q :: rest => if p.1 ≤ q.1 then p :: q :: rest else q :: insertByName p rest

/-- Name-sorted joint table, models `sorted(self.joints.keys())` with the
servo id carried along (`sid = self.joints[name]`). -/
def sortByName (l : List (String × ℤ)) : List (String × ℤ) := l.foldr insertByName []

/-- Runtime `WaveshareHWI.get_present_positions`: the read is modelled as
`readPos : ℤ → Option ℤ` (`none` = raised exception; the code destructures
`pos, _, _ = ReadPos(sid)` and ignores the comm-result/error fields).
An exception appends `0.0`; the call always returns a full-length list. -/
def get_present_positions_od (countsPerPi : ℤ) (joints : List (String × ℤ))
    (ignore : List String) (readPos : ℤ → Option ℤ) : List ℚ :=
  (sortByName joints).foldr (fun p out =>
    if p.1 ∈ ignore then out
    else
      (match readPos p.2 with
       | some pos => servo_pos_to_rad countsPerPi pos
       | none => 0) :: out) []

/-- The hard-coded `self.joints` table of the duck_files `WaveshareHWI`,
in source (insertion) order. -/
def duckJoints : List (String × ℤ) :=
  [("left_hip_yaw", 20), ("left_hip_roll", 21), ("left_hip_pitch", 22),
   ("left_knee", 23), ("left_ankle", 24), ("neck_pitch", 30), ("head_pitch", 31),
   ("head_yaw", 32), ("head_roll", 33), ("right_hip_yaw", 10), ("right_hip_roll", 11),
   ("right_hip_pitch", 12), ("right_knee", 13), ("right_ankle", 14)]

/-- duck_files `WaveshareHWI.rad_to_servo_pos`:
`servo_pos = (rad / np.pi) * (SERVO_POS_RANGE / 2) + (SERVO_POS_RANGE / 2)`
with `SERVO_POS_RANGE = 2048`, then `np.clip(servo_pos, 0, 2047)`
(a float result; callers truncate with `int()`). -/
def rad_to_servo_pos_df (rad : ℚ) : ℚ :=
  min (max ((rad / piF) * (2048 / 2) + (2048 / 2)) 0) 2047

/-- duck_files `WaveshareHWI.servo_pos_to_rad`:
`((servo_pos - SERVO_POS_RANGE / 2) / (SERVO_POS_RANGE / 2)) * np.pi`. -/
def servo_pos_to_rad_df (servoPos : ℚ) : ℚ := ((servoPos - 2048 / 2) / (2048 / 2)) * piF

/-- `np.around(x, 3)`: round to 3 decimal places.  NumPy rounds ties to even
while `round` rounds ties up; no value in this development lies on a tie. -/
def around3 (q : ℚ) : ℚ := ((round (q * 1000) : ℤ) : ℚ) / 1000

/-- duck_files `set_position_all` / `set_position` commanded count for one
joint: `int(rad_to_servo_pos(position + joints_offsets[joint_name]))`. -/
def commanded_count_df (position offset : ℚ) : ℤ :=
  truncQ (rad_to_servo_pos_df (position + offset))

/-- duck_files `get_present_positions` value for one joint resting at `count`:
`servo_pos_to_rad(count) - joints_offsets[joint_name]`, then `np.around(·, 3)`. -/
def read_back_df (count : ℤ) (offset : ℚ) : ℚ :=
  around3 (servo_pos_to_rad_df (count : ℚ) - offset)

/-- The read loop of duck_files `get_present_positions`: `ReadPos` is modelled
as `ℤ → Option (ℤ × ℤ)` returning `(servo_pos, comm_result)`; `none` models a
raised exception.  An exception or `comm_result ≠ 0` (`COMM_SUCCESS = 0`)
makes the whole call return `None`. -/
def readLoopDf (offsets : String → ℚ) (ignore : List String)
    (readPos : ℤ → Option (ℤ × ℤ)) : List (String × ℤ) → Option (List ℚ)
  | [] => some []
  | p :: rest =>
    if p.1 ∈ ignore then readLoopDf offsets ignore readPos rest
    else
      match readPos p.2 with
      | none => none
      | some (pos, commResult) =>
        if commResult ≠ 0 then none
        else (readLoopDf offsets ignore readPos rest).map
          (fun tl => (servo_pos_to_rad_df (pos : ℚ) - offsets p.1) :: tl)

/-- duck_files `WaveshareHWI.get_present_positions`: all-or-nothing collection
over the joint table, then `np.around(·, 3)` on the collected values. -/
def get_present_positions_df (offsets : String → ℚ) (joints : List (String × ℤ))
    (ignore : List String) (readPos : ℤ → Option (ℤ × ℤ)) : Option (List ℚ) :=
  (readLoopDf offsets ignore readPos joints).map (List.map around3)

/-- C1 counterexample: the runtime `get_present_positions` does not fail as a
whole.  With the 14-joint table, no exclusions, and servo 23 (`left_knee`)
raising on every read, it still returns a full 14-entry list, with `0.0`
substituted at the failed joint (index 7 in name-sorted order). -/
theorem get_present_positions_od_partial :
    (get_present_positions_od 1024 duckJoints []
        (fun sid => if sid = 23 then none else some 600)).length = 14 ∧
      (get_present_positions_od 1024 duckJoints []
        (fun sid => if sid = 23 then none else some 600))[7]? = some 0 := by
  constructor
  · simp +decide [get_present_positions_od, sortByName, insertByName, duckJoints]
  · simp +decide [get_present_positions_od, sortByName, insertByName, duckJoints]

lemma readLoopDf_fail (offsets : String → ℚ) (ignore : List String)
    (readPos : ℤ → Option (ℤ × ℤ)) :
    ∀ (joints : List (String × ℤ)) (p : String × ℤ), p ∈ joints → p.1 ∉ ignore →
      (readPos p.2 = none ∨ ∃ pos r, readPos p.2 = some (pos, r) ∧ r ≠ 0) →
      readLoopDf offsets ignore readPos joints = none := by
  intro joints
  induction joints with
  | nil => intro p hmem; cases hmem
  | cons q rest ih =>
    intro p hmem hnotig hfl
    rcases List.mem_cons.1 hmem with heq | hmem'
    · subst heq
      rcases hfl with hnone | ⟨pos, r, hsome, hr⟩
      · simp [readLoopDf, hnotig, hnone]
      · simp [readLoopDf, hnotig, hsome, hr]
    · by_cases hq : q.1 ∈ ignore
      · simp [readLoopDf, hq, ih p hmem' hnotig hfl]
      · cases hread : readPos q.2 with
        | none => simp [readLoopDf, hq, hread]
        | some pr =>
          rcases pr with ⟨pos, r⟩
          rcases eq_or_ne r 0 with rfl | hr
          · simp [readLoopDf, hq, hread, ih p hmem' hnotig hfl]
          · simp [readLoopDf, hq, hread, hr]

/-- C1 amended: the duck_files `get_present_positions` is all-or-nothing — if
the read of any one non-excluded joint fails (exception or bad comm result)
the whole call returns `None`, never a partial per-joint list; the runtime
version instead substitutes `0.0` for failed joints and returns a full list. -/
theorem get_present_positions_df_all_or_nothing (offsets : String → ℚ)
    (joints : List (String × ℤ)) (ignore : List String)
    (readPos : ℤ → Option (ℤ × ℤ))
    (hfail : ∃ p ∈ joints, p.1 ∉ ignore ∧
      (readPos p.2 = none ∨ ∃ pos r, readPos p.2 = some (pos, r) ∧ r ≠ 0)) :
    get_present_positions_df offsets joints ignore readPos = none := by
  obtain ⟨p, hmem, hnotig, hfl⟩ := hfail
  unfold get_present_positions_df
  rw [readLoopDf_fail offsets ignore readPos joints p hmem hnotig hfl]
  rfl

/-- C1 amended witness: the 14-joint duck_files table with servo 23
(`left_knee`) unresponsive yields `None`, not a 13-entry mapping. -/
theorem get_present_positions_df_all_or_nothing_witness :
    get_present_positions_df (fun _ => 0) duckJoints []
      (fun sid => if sid = 23 then none else some (512, 0)) = none :=
  get_present_positions_df_all_or_nothing (fun _ => 0) duckJoints []
    (fun sid => if sid = 23 then none else some (512, 0))
    ⟨("left_knee", 23), by simp [duckJoints], by simp, Or.inl (by norm_num)⟩

/-- C10 counterexample: in the duck_files interface with zero offset, command
θ = 1.4634 rad; the servo count is 1500, but the read-back value (1.460 after
the 3-decimal output rounding) differs from θ by 0.0034, more than one count
(`π/1024 ≈ 0.00307`). -/
theorem read_back_df_not_within_one_count :
    ¬ (|read_back_df (commanded_count_df (7317 / 5000) 0) 0 - 7317 / 5000| ≤ piF / 1024) := by
  norm_num [read_back_df, commanded_count_df, rad_to_servo_pos_df, servo_pos_to_rad_df,
    around3, truncQ, piF, abs_le, min_def, max_def, round_eq]

/-- C10 amended: in the duck_files interface, reading subtracts the same
per-joint offset that setting adds, so for any commanded angle θ whose
offset-shifted value stays in the representable span (`|θ + offset| ≤ π`),
the read-back differs from θ by at most one count (`π/1024`) plus the
`np.around(·, 3)` output rounding (`1/2000`), independently of the offset. -/
theorem read_back_df_close (θ offset : ℚ) (hrange : |θ + offset| ≤ piF) :
    |read_back_df (commanded_count_df θ offset) offset - θ| ≤ piF / 1024 + 1 / 2000 := by
  set s : ℚ := θ + offset with hs
  set v : ℚ := (s / piF) * 1024 + 1024 with hv
  have hsdiv : -1 ≤ s / piF ∧ s / piF ≤ 1 := by
    rw [← abs_le, abs_div, abs_of_pos piF_pos]
    exact div_le_one_of_le₀ hrange piF_pos.le
  have hv0 : 0 ≤ v := by
    have : -(1 : ℚ) * 1024 ≤ (s / piF) * 1024 :=
      mul_le_mul_of_nonneg_right hsdiv.1 (by norm_num)
    rw [hv]; linarith
  have hv2 : v ≤ 2048 := by
    have : (s / piF) * 1024 ≤ 1 * 1024 :=
      mul_le_mul_of_nonneg_right hsdiv.2 (by norm_num)
    rw [hv]; linarith
  have hclip : rad_to_servo_pos_df s = min v 2047 := by
    unfold rad_to_servo_pos_df
    rw [show ((2048 : ℚ) / 2) = 1024 by norm_num, ← hv, max_eq_left hv0]
  have hmin0 : 0 ≤ min v 2047 := le_min hv0 (by norm_num)
  have hcount : commanded_count_df θ offset = ⌊min v 2047⌋ := by
    unfold commanded_count_df
    rw [← hs, hclip, truncQ_of_nonneg hmin0]
  have hfloor_err : |((⌊min v 2047⌋ : ℤ) : ℚ) - v| ≤ 1 := by
    rcases le_or_lt v 2047 with hle | hlt
    · rw [min_eq_left hle, abs_le]
      have h1 := Int.sub_one_lt_floor v
      have h2 := Int.floor_le v
      constructor <;> linarith
    · rw [min_eq_right hlt.le]
      rw [show ((2047 : ℚ)) = ((2047 : ℤ) : ℚ) by norm_num, Int.floor_intCast, abs_le]
      push_cast
      constructor <;> linarith
  have hseq : (v - 1024) / 1024 * piF = s := by
    have hpne : piF ≠ 0 := piF_pos.ne'
    rw [hv]
    field_simp
    ring
  have hback_err : |servo_pos_to_rad_df ((⌊min v 2047⌋ : ℤ) : ℚ) - s| ≤ piF / 1024 := by
    unfold servo_pos_to_rad_df
    rw [show ((2048 : ℚ) / 2) = 1024 by norm_num, ← hseq]
    have heq : (((⌊min v 2047⌋ : ℤ) : ℚ) - 1024) / 1024 * piF - (v - 1024) / 1024 * piF =
        (((⌊min v 2047⌋ : ℤ) : ℚ) - v) * (piF / 1024) := by ring
    rw [heq, abs_mul, abs_of_pos (div_pos piF_pos (by norm_num) : (0 : ℚ) < piF / 1024)]
    calc |((⌊min v 2047⌋ : ℤ) : ℚ) - v| * (piF / 1024) ≤ 1 * (piF / 1024) :=
          mul_le_mul_of_nonneg_right hfloor_err (div_pos piF_pos (by norm_num)).le
      _ = piF / 1024 := one_mul _
  set x : ℚ := servo_pos_to_rad_df ((⌊min v 2047⌋ : ℤ) : ℚ) - offset with hx
  have hxθ : |x - θ| ≤ piF / 1024 := by
    rw [hx]
    have : servo_pos_to_rad_df ((⌊min v 2047⌋ : ℤ) : ℚ) - offset - θ =
        servo_pos_to_rad_df ((⌊min v 2047⌋ : ℤ) : ℚ) - s := by rw [hs]; ring
    rw [this]
    exact hback_err
  have haround : |around3 x - x| ≤ 1 / 2000 := by
    unfold around3
    have h1 : ((round (x * 1000) : ℤ) : ℚ) / 1000 - x =
        (((round (x * 1000) : ℤ) : ℚ) - x * 1000) / 1000 := by ring
    rw [h1, abs_div, abs_of_pos (by norm_num : (0 : ℚ) < 1000)]
    have h2 := abs_sub_round (x * 1000)
    rw [abs_sub_comm] at h2
    linarith
  have hfinal : read_back_df (commanded_count_df θ offset) offset - θ =
      (around3 x - x) + (x - θ) := by
    unfold read_back_df
    rw [hcount, ← hx]
    ring
  calc |read_back_df (commanded_count_df θ offset) offset - θ|
      = |(around3 x - x) + (x - θ)| := by rw [hfinal]
    _ ≤ |around3 x - x| + |x - θ| := abs_add _ _
    _ ≤ 1 / 2000 + piF / 1024 := add_le_add haround hxθ
    _ = piF / 1024 + 1 / 2000 := by ring

/-- C10 amended witness: θ = π/4 with offset 0.1 rad stays within one count
plus the output rounding. -/
theorem read_back_df_close_witness :
    |read_back_df (commanded_count_df (piF / 4) (1 / 10)) (1 / 10) - piF / 4| ≤
      piF / 1024 + 1 / 2000 :=
  read_back_df_close (piF / 4) (1 / 10)
    (by rw [abs_of_pos (by norm_num [piF])]; norm_num [piF])

/-!
Goal-position writes.  Runtime `WaveshareHWI.set_position_all` issues, per
commanded joint, `WritePosEx(sid, pos, speed, acc)` for the `sms_sts`
protocol and `WritePos(sid, pos, 0, speed)` ("use time=0 for immediate") for
the SC family.  The diagnostic helper `test_single_movement` in
`STServo_Python/stservo-env/sms_sts/test_waveshare_setup.py` is the one place
that computes an SC duration from the position delta and speed, with a 100 ms
floor.
-/

/-- A goal-position write on the servo bus: SC-family `WritePos(id, position,
time_ms, speed)` or ST-family `WritePosEx(id, position, speed, acc)`. -/
inductive ServoWrite where
  | writePos (sid pos timeMs speed : ℤ)
  | writePosEx (sid pos speed accel : ℤ)
  deriving DecidableEq

/-- Runtime `WaveshareHWI.set_position_all`: iterate the commanded entries in
order; names absent from the joint map are skipped; the angle is converted
with `rad_to_servo_pos`; `sms_sts` gets `WritePosEx(sid, pos, speed, acc)`,
the SC family gets `WritePos(sid, pos, 0, speed)`.  The for-loop is modelled
by structural recursion returning the write sequence. -/
def set_position_all (countsPerPi : ℤ) (protocol : String)
    (joints : List (String × ℤ)) (speed accel : ℤ) :
    List (String × ℚ) → List ServoWrite
  | [] => []
  | (name, rad) :: rest =>
    let tail := set_position_all countsPerPi protocol joints speed accel rest
    match joints.lookup name with
    | none => tail
    | some sid =>
      if protocol = "sms_sts" then
        ServoWrite.writePosEx sid (rad_to_servo_pos countsPerPi rad) speed accel :: tail
      else
        ServoWrite.writePos sid (rad_to_servo_pos countsPerPi rad) 0 speed :: tail

/-- The SC duration computation of `test_single_movement`
(`test_waveshare_setup.py`): `delta = abs(cur - req_pos)`;
`spd = speed if speed > 0 else 1500`;
`time_param = int((delta / max(spd, 1.0)) * 1000.0) + 100`;
`if time_param < 100: time_param = 100`. -/
def sc_time_param (cur reqPos speed : ℤ) : ℤ :=
  if truncQ ((((|cur - reqPos|) : ℤ) : ℚ) / max (((if 0 < speed then speed else 1500 : ℤ)) : ℚ) 1 * 1000) + 100 < 100 then
    100
  else
    truncQ ((((|cur - reqPos|) : ℤ) : ℚ) / max (((if 0 < speed then speed else 1500 : ℤ)) : ℚ) 1 * 1000) + 100

/-- C7 counterexample: a position command through the SC-protocol branch of
`set_position_all` carries duration `0` on the wire (`WritePos(sid, pos, 0,
speed)`), not a `|Δcount|/speed`-derived duration with a floor. -/
theorem set_position_all_sc_sends_zero_duration :
    set_position_all 1024 "scscl" [("left_knee", 23)] 500 30 [("left_knee", 171 / 125)] =
      [ServoWrite.writePos 23 734 0 500] := by
  have h734 : rad_to_servo_pos 1024 (171 / 125) = 734 := by
    norm_num [rad_to_servo_pos, truncQ, clampZ, piF]
  simp [set_position_all, List.lookup, h734]

/-- C7 amended: the runtime SC branch always sends duration 0 (immediate move)
with the commanded speed, and the ST branch passes speed and acceleration
through unchanged; the `|Δcount|/speed` duration with a minimum floor exists
only in the diagnostic helper `test_single_movement`, whose duration parameter
is always at least 100 ms (never zero). -/
theorem write_durations :
    (∀ (countsPerPi : ℤ) (joints : List (String × ℤ)) (speed accel : ℤ)
        (cmds : List (String × ℚ)) (w : ServoWrite),
        w ∈ set_position_all countsPerPi "scscl" joints speed accel cmds →
        ∃ sid pos, w = ServoWrite.writePos sid pos 0 speed) ∧
      (∀ (countsPerPi : ℤ) (joints : List (String × ℤ)) (speed accel : ℤ)
        (cmds : List (String × ℚ)) (w : ServoWrite),
        w ∈ set_position_all countsPerPi "sms_sts" joints speed accel cmds →
        ∃ sid pos, w = ServoWrite.writePosEx sid pos speed accel) ∧
      (∀ cur reqPos speed : ℤ, 100 ≤ sc_time_param cur reqPos speed) := by
  refine ⟨?_, ?_, ?_⟩
  · intro countsPerPi joints speed accel cmds
    induction cmds with
    | nil => intro w hw; cases hw
    | cons c rest ih =>
      intro w hw
      obtain ⟨name, rad⟩ := c
      rw [set_position_all] at hw
      rcases hlk : joints.lookup name with _ | sid
      · rw [hlk] at hw
        exact ih w hw
      · rw [hlk] at hw
        dsimp only at hw
        rw [if_neg (by decide : ¬ ("scscl" : String) = "sms_sts")] at hw
        rcases List.mem_cons.1 hw with rfl | hw'
        · exact ⟨sid, rad_to_servo_pos countsPerPi rad, rfl⟩
        · exact ih w hw'
  · intro countsPerPi joints speed accel cmds
    induction cmds with
    | nil => intro w hw; cases hw
    | cons c rest ih =>
      intro w hw
      obtain ⟨name, rad⟩ := c
      rw [set_position_all] at hw
      rcases hlk : joints.lookup name with _ | sid
      · rw [hlk] at hw
        exact ih w hw
      · rw [hlk] at hw
        dsimp only at hw
        rw [if_pos rfl] at hw
        rcases List.mem_cons.1 hw with rfl | hw'
        · exact ⟨sid, rad_to_servo_pos countsPerPi rad, rfl⟩
        · exact ih w hw'
  · intro cur reqPos speed
    have hd : (0 : ℚ) ≤ (((|cur - reqPos|) : ℤ) : ℚ) /
        max (((if 0 < speed then speed else 1500 : ℤ)) : ℚ) 1 * 1000 := by
      have h1 : (0 : ℚ) ≤ (((|cur - reqPos|) : ℤ) : ℚ) := by
        exact_mod_cast abs_nonneg (cur - reqPos)
      have h2 : (0 : ℚ) ≤ max (((if 0 < speed then speed else 1500 : ℤ)) : ℚ) 1 :=
        le_trans zero_le_one (le_max_right _ _)
      exact mul_nonneg (div_nonneg h1 h2) (by norm_num)
    have ht := truncQ_nonneg hd
    unfold sc_time_param
    split <;> omega

/-- C7 witness: the single SC write produced for joint `left_knee` at 1.368 rad
has the shape `WritePos(sid, pos, 0, 500)`. -/
theorem write_durations_witness :
    ∃ sid pos, ServoWrite.writePos 23 734 0 500 = ServoWrite.writePos sid pos 0 500 :=
  write_durations.1 1024 [("left_knee", 23)] 500 30 [("left_knee", 171 / 125)]
    (ServoWrite.writePos 23 734 0 500)
    (by
      have h734 : rad_to_servo_pos 1024 (171 / 125) = 734 := by
        norm_num [rad_to_servo_pos, truncQ, clampZ, piF]
      simp [set_position_all, List.lookup, h734])

/-!
Construction of the runtime `WaveshareHWI`.  `__init__` reads every
configuration field with `getattr(duck_config, field, default)`:
`protocol` defaults to `"scscl"`, `counts_per_pi` to 1024, `joint_map` and
`init_pos` to empty dicts.  The only raise tied to configuration is
`RuntimeError("Required scservo packet handler not available")` when the
selected protocol's SDK packet class is missing — and the serial port has
already been opened by then.  The port/baud side effects are not modelled;
the model captures which configurations construct successfully and with
which field values.
-/

/-- The configuration attributes `WaveshareHWI.__init__` probes with
`getattr`; `none` models an absent attribute. -/
structure DuckConfigAttrs where
  protocol : Option String
  counts_per_pi : Option ℤ
  joint_map : Option (List (String × ℤ))
  init_pos : Option (List (String × ℚ))

/-- The fields of a constructed runtime `WaveshareHWI`. -/
structure HWIState where
  protocol : String
  counts_per_pi : ℤ
  joints : List (String × ℤ)
  init_pos : List (String × ℚ)

/-- Runtime `WaveshareHWI.__init__`: `getattr` defaults for every field, one
failure mode (missing SDK packet class for the selected protocol). -/
def initHWI (cfg : DuckConfigAttrs) (scsclAvail smsStsAvail : Bool) : Except String HWIState :=
  let protocol := cfg.protocol.getD "scscl"
  let packetAvailable := if protocol = "sms_sts" then smsStsAvail else scsclAvail
  if packetAvailable then
    Except.ok { protocol := protocol
                counts_per_pi := cfg.counts_per_pi.getD 1024
                joints := cfg.joint_map.getD []
                init_pos := cfg.init_pos.getD [] }
  else Except.error "Required scservo packet handler not available"

/-- C8 counterexample: a configuration missing every field — in particular the
safety-relevant `protocol` and `joint_map` — does not make construction fail;
it succeeds with the silent defaults `protocol = "scscl"` and an empty joint
map. -/
theorem initHWI_accepts_missing_fields :
    initHWI ⟨none, none, none, none⟩ true true = Except.ok ⟨"scscl", 1024, [], []⟩ := by
  rfl

/-- C8 amended: when `protocol` and `joint_map` are absent the constructor
substitutes the silent defaults `"scscl"` and an empty map and succeeds
whenever the SC SDK packet class is importable; construction fails only on a
missing SDK packet class (and only after the port was already opened). -/
theorem initHWI_defaults (cfg : DuckConfigAttrs) (smsStsAvail : Bool)
    (hp : cfg.protocol = none) (hj : cfg.joint_map = none) :
    ∃ st, initHWI cfg true smsStsAvail = Except.ok st ∧
      st.protocol = "scscl" ∧ st.joints = [] := by
  refine ⟨⟨"scscl", cfg.counts_per_pi.getD 1024, [], cfg.init_pos.getD []⟩, ?_, rfl, rfl⟩
  simp [initHWI, hp, hj]

/-- C8 witness: the all-absent configuration with the SC SDK available. -/
theorem initHWI_defaults_witness :
    ∃ st, initHWI ⟨none, none, none, none⟩ true true = Except.ok st ∧
      st.protocol = "scscl" ∧ st.joints = [] :=
  initHWI_defaults ⟨none, none, none, none⟩ true rfl rfl

/-!
Operator-abort path of `check_motors.main`.  When some motors are
unresponsive and the operator declines to continue, the script loops over
`hwi.joints.items()` and, for every joint not in `unresponsive_motors`,
calls `hwi.turn_off()` (the Waveshare HWI has a `turn_off` attribute, so the
per-joint `disable_torque` branch is never taken).  `WaveshareHWI.turn_off`
itself loops over all joints and attempts `write1ByteTxRx(sid, 24, 0)` for
each, swallowing exceptions, so every invocation touches the whole table.
-/

/-- The servo ids targeted by one `WaveshareHWI.turn_off()` call, in order. -/
def turn_off_writes (joints : List (String × ℤ)) : List ℤ := joints.map Prod.snd

/-- The torque-disable write targets issued by the operator-abort path of
`check_motors.main`: one `turn_off()` call per joint not in
`unresponsive_motors`, concatenated in loop order. -/
def abortDisableWrites (joints unresp : List (String × ℤ)) : List ℤ :=
  (joints.filter (fun p => !(unresp.contains p))).foldl
    (fun acc _ => acc ++ turn_off_writes joints) []

/-- C9 counterexample: with the 14-joint table and `left_knee` (23) and
`head_yaw` (32) unresponsive, the healthy joint 20 receives 12
torque-disable attempts (not exactly one) and the unresponsive joint 23
also receives 12 attempts (not zero). -/
theorem abortDisableWrites_not_once_each :
    (abortDisableWrites duckJoints [("left_knee", 23), ("head_yaw", 32)]).count 20 = 12 ∧
      (abortDisableWrites duckJoints [("left_knee", 23), ("head_yaw", 32)]).count 23 = 12 := by
  constructor <;> decide

lemma foldl_append_count (w : List ℤ) (sid : ℤ) :
    ∀ (l : List (String × ℤ)) (acc : List ℤ),
      (l.foldl (fun a _ => a ++ w) acc).count sid = acc.count sid + l.length * w.count sid := by
  intro l
  induction l with
  | nil => intro acc; simp
  | cons p rest ih =>
    intro acc
    simp only [List.foldl_cons, ih, List.count_append, List.length_cons]
    ring

/-- C9 amended: on operator abort, every servo id in the table — healthy or
unresponsive — receives one disable attempt per healthy joint: the count of
disable writes to a servo id equals the number of healthy joints times that
id's multiplicity in the table (so with 2 of 14 joints unresponsive, every
joint receives 12 attempts, not once-per-healthy/zero-per-unresponsive). -/
theorem abortDisableWrites_count (joints unresp : List (String × ℤ)) (sid : ℤ) :
    (abortDisableWrites joints unresp).count sid =
      (joints.filter (fun p => !(unresp.contains p))).length *
        (turn_off_writes joints).count sid := by
  unfold abortDisableWrites
  rw [foldl_append_count]
  simp
